import Mathlib

/-!
# Verification of the wolog2 content cache, indexer and search engine

Shallow embedding of the live module `src/article.rs` (together with the
filter stage `src/filters/mod.rs`) of the wolog2 blog engine.  Paths are
modelled as lists of segments, `Instant`/`SystemTime` values as natural
numbers, and the external `pandoc` converter, the YAML parser for embedded
search blocks and the Tera template renderer as oracle functions supplied in
an environment record.  The global `DashMap`/`DashSet` caches become explicit
state threaded through each operation, and every operation additionally
returns a trace of the external effects it performed (converter invocations,
full disk walks), so that claims such as "no re-render happens" or "at most
one disk walk occurs" are directly expressible.

Each definition carries a reference to the source item it embeds.  The
sibling file `src/article.old.rs` is a superseded revision of the same
module; `src/article.rs` is the live code and is what is embedded here.
-/

namespace Wolog

/-- A filesystem path, as its list of segments (e.g. `["articles", "a.md"]`).
Embeds `std::path::Path`/`PathBuf` for the purposes of this module: the code
only joins segments, compares paths, takes `extension()` of the final
segment and strips the leading `articles` component. -/
abbrev FsPath := List String

/-- `chrono::NaiveDate`, as a year/month/day triple.  `NaiveDate::default()`
is the Unix epoch date 1970-01-01, which the code uses as the "unset"
sentinel for front-matter dates. -/
structure NaiveDate where
  y : Nat
  m : Nat
  d : Nat
deriving DecidableEq, Repr

instance : Inhabited NaiveDate := ⟨⟨1970, 1, 1⟩⟩

/-- The "unset" sentinel `NaiveDate::default()` (1970-01-01). -/
def NaiveDate.unset : NaiveDate := ⟨1970, 1, 1⟩

/-- `Ord for chrono::NaiveDate`: chronological order, i.e. lexicographic on
(year, month, day). -/
def NaiveDate.cmp (a b : NaiveDate) : Ordering :=
  (compare a.y b.y).then ((compare a.m b.m).then (compare a.d b.d))

/-- Boolean `≤` on dates, derived from `NaiveDate.cmp`. -/
def NaiveDate.ble (a b : NaiveDate) : Bool := a.cmp b ≠ Ordering.gt

/-- Boolean `<` on dates, derived from `NaiveDate.cmp`. -/
def NaiveDate.blt (a b : NaiveDate) : Bool := a.cmp b = Ordering.lt

/-- The front-matter metadata record `ArticleMeta` from `src/article.rs`
(lines 332-358), with each `#[serde(default)]` recorded as the field's
default value.  The presentation-only `toc` field and the
`#[serde(flatten)] extra` pass-through map are not referenced by any claim
and are omitted from the model; no document modelled here carries front
matter for them. -/
structure ArticleMeta where
  title : String := "Untitled Page"
  blurb : String := ""
  tags : List String := []
  template : String := "article"
  exclude_from_rss : Bool := false
  hidden : Bool := false
  updated : NaiveDate := NaiveDate.unset
  created : NaiveDate := NaiveDate.unset
  ready : Bool := false
  always_rerender : Bool := false
deriving DecidableEq, Repr

instance : Inhabited ArticleMeta := ⟨{}⟩

/-- A cached HTML render: the `Article` struct from `src/article.rs` lines
312-317.  `rendered_at` is the `SystemTime` at which the render completed. -/
structure Article where
  content : String
  meta : ArticleMeta
  rendered_at : Nat
deriving DecidableEq, Repr

/-- The six sort orders of `SortType` in `src/article.rs` lines 239-248. -/
inductive SortType where
  | CreateAsc
  | CreateDesc
  | UpdateAsc
  | UpdateDesc
  | NameAsc
  | NameDesc
deriving DecidableEq, Repr

/-- `String::cmp`: lexicographic order, the `Ord String` order of Lean. -/
def strCmp (a b : String) : Ordering := compare a b

/-- `SortType::sort_fn` from `src/article.rs` lines 262-275: the comparator
on `(path, metadata)` pairs selected by each sort type. -/
def SortType.sort_fn : SortType → ((FsPath × ArticleMeta) → (FsPath × ArticleMeta) → Ordering)
  | .CreateAsc => fun l r => NaiveDate.cmp l.2.created r.2.created
  | .CreateDesc => fun l r => NaiveDate.cmp r.2.created l.2.created
  | .UpdateAsc => fun l r => NaiveDate.cmp l.2.updated r.2.updated
  | .UpdateDesc => fun l r => NaiveDate.cmp r.2.updated l.2.updated
  | .NameAsc => fun l r => strCmp l.2.title r.2.title
  | .NameDesc => fun l r => strCmp r.2.title l.2.title

/-- Insert into a list already sorted by the comparator `cmp`, placing the
new element before later elements that compare equal (the position a stable
sort gives an element preceding the rest of the input). -/
def insertCmp {α : Type} (cmp : α → α → Ordering) (x : α) : List α → List α
  | [] => [x]
  | y :: l => if cmp x y = Ordering.gt then y :: insertCmp cmp x l else x :: y :: l

/-- `Vec::sort_by` with comparator `cmp`: Rust's slice sort is stable, so it
is extensionally the stable insertion sort. -/
def sortByCmp {α : Type} (cmp : α → α → Ordering) : List α → List α
  | [] => []
  | x :: l => insertCmp cmp x (sortByCmp cmp l)

/-- `range.contains(&item)` bound endpoints: `std::ops::Bound`. -/
inductive Bnd (α : Type) where
  | included (a : α)
  | excluded (a : α)
  | unbounded
deriving DecidableEq, Repr

/-- `Bounds<NaiveDate> = (Bound<NaiveDate>, Bound<NaiveDate>)` from
`src/article.rs` line 233. -/
abbrev DateBounds := Bnd NaiveDate × Bnd NaiveDate

/-- `RangeBounds::contains` for a `(Bound, Bound)` pair: the start bound is
satisfied inclusively/strictly per its constructor, likewise the end. -/
def boundsContain (b : DateBounds) (x : NaiveDate) : Bool :=
  (match b.1 with
   | .included a => a.ble x
   | .excluded a => a.blt x
   | .unbounded => true)
  && (match b.2 with
      | .included a => x.ble a
      | .excluded a => x.blt a
      | .unbounded => true)

/-- `str::contains(needle)` on lists of characters: `needle` occurs as a
contiguous substring. -/
def infixCheck (needle : List Char) : List Char → Bool
  | [] => needle.isEmpty
  | c :: t => needle.isPrefixOf (c :: t) || infixCheck needle t

/-- `haystack.contains(needle)` for Rust strings. -/
def strContains (hay needle : String) : Bool := infixCheck needle.toList hay.toList

/-- The `Search` criteria struct from `src/article.rs` lines 277-310, with
its `serde`/`Default` defaults. -/
structure Search where
  search_path : FsPath := []
  exclude_paths : List FsPath := []
  tags : List String := []
  created : DateBounds := (Bnd.unbounded, Bnd.unbounded)
  updated : DateBounds := (Bnd.unbounded, Bnd.unbounded)
  title_filter : Option String := none
  sort_type : SortType := SortType.CreateDesc
  limit : Option Nat := none
deriving DecidableEq, Repr

/-! ## The pandoc document tree

The fragment of `pandoc_ast`'s `Pandoc`/`Block`/`Inline`/`MetaValue` types
that `src/article.rs` and `src/filters/mod.rs` inspect.  Lean 4.14 does not
support structural recursion through nested `List` occurrences, so the list
positions inside constructors are de-nested into mutually inductive list
types; `Block` constructors not examined by the code (`Header`, `Div`,
lists, tables, ...) are collapsed into `Block.other`, which every function
below treats exactly as the source's catch-all `_` arms treat those
constructors. -/

/-- A pandoc `Attr`: (identifier, classes, key-value pairs). -/
abbrev Attr := String × List String × List (String × String)

mutual
inductive Inline where
  | Str (s : String)
  | Space
  | SoftBreak
  | LineBreak
  | Link (attr : Attr) (contents : InlineList) (url : String) (title : String)
  | other
deriving DecidableEq, Repr
inductive InlineList where
  | nil
  | cons (i : Inline) (rest : InlineList)
deriving DecidableEq, Repr
inductive InlineListList where
  | nil
  | cons (is : InlineList) (rest : InlineListList)
deriving DecidableEq, Repr
inductive Block where
  | Plain (is : InlineList)
  | Para (is : InlineList)
  | LineBlock (ls : InlineListList)
  | CodeBlock (attr : Attr) (contents : String)
  | RawBlock (format : String) (s : String)
  | BlockQuote (bs : BlockList)
  | other
deriving DecidableEq, Repr
inductive BlockList where
  | nil
  | cons (b : Block) (rest : BlockList)
deriving DecidableEq, Repr
end

mutual
inductive MetaValue where
  | MetaMap (m : MetaKVList)
  | MetaList (l : MetaValueList)
  | MetaBool (b : Bool)
  | MetaString (s : String)
  | MetaInlines (is : InlineList)
  | MetaBlocks (bs : BlockList)
deriving DecidableEq, Repr
inductive MetaValueList where
  | nil
  | cons (v : MetaValue) (rest : MetaValueList)
deriving DecidableEq, Repr
inductive MetaKVList where
  | nil
  | cons (k : String) (v : MetaValue) (rest : MetaKVList)
deriving DecidableEq, Repr
end

/-- `pandoc_ast::Pandoc`: the metadata map plus the block sequence (the
`pandoc_api_version` field is irrelevant and omitted).  `meta` is a
`Map<String, MetaValue>`; it is modelled as an association list looked up by
key. -/
structure Pandoc where
  meta : List (String × MetaValue)
  blocks : List Block
deriving DecidableEq, Repr

/-- Association-list lookup (first binding wins), the model of map lookup. -/
def alookup {κ β : Type} [DecidableEq κ] (k : κ) : List (κ × β) → Option β
  | [] => none
  | kv :: l => if kv.1 = k then some kv.2 else alookup k l

/-- Map insert, replacing any existing binding for the key. -/
def ainsert {κ β : Type} [DecidableEq κ] (k : κ) (v : β) (l : List (κ × β)) : List (κ × β) :=
  (k, v) :: l.filter (fun kv => if kv.1 = k then false else true)

/-- `pandoc_inline_to_string` from `src/article.rs` lines 364-372: a
non-recursive rendering of one inline element. -/
def inlineToString : Inline → String
  | .Str s => s
  | .Space => " "
  | .SoftBreak => "\n"
  | .LineBreak => "\n"
  | _ => ""

/-- `i.iter().map(pandoc_inline_to_string).collect::<String>()`. -/
def inlinesToString : InlineList → String
  | .nil => ""
  | .cons i rest => inlineToString i ++ inlinesToString rest

mutual
/-- `pandoc_block_to_string` from `src/article.rs` lines 373-386. -/
def blockToString : Block → String
  | .Para is => inlinesToString is
  | .Plain is => inlinesToString is
  | .LineBlock ls => lineBlockToString ls
  | .RawBlock _ s => s
  | .BlockQuote bs => quoteToString bs
  | _ => ""
termination_by structural b => b
/-- The `LineBlock` arm: each line rendered and suffixed with a newline. -/
def lineBlockToString : InlineListList → String
  | .nil => ""
  | .cons is rest => (inlinesToString is ++ "\n") ++ lineBlockToString rest
termination_by structural ls => ls
/-- The `BlockQuote` arm: each child rendered and suffixed with a newline. -/
def quoteToString : BlockList → String
  | .nil => ""
  | .cons b rest => (blockToString b ++ "\n") ++ quoteToString rest
termination_by structural bs => bs
end

/-- `b.iter().map(pandoc_block_to_string).collect::<String>()` (the
`MetaBlocks` arm of `pandoc_meta_to_value`). -/
def blocksToString : BlockList → String
  | .nil => ""
  | .cons b rest => blockToString b ++ blocksToString rest

/-- The error enum `ArticleError` from `src/article/error.rs` (payloads that
no claim inspects are dropped; `PandocFailed` keeps the captured converter
output). -/
inductive ArticleError where
  | MalformedPath
  | NotMarkdown
  | IoError
  | NoArticle
  | JoinError
  | Utf8Error
  | PandocFailed (out : String)
  | JsonError
  | NotForPublication
deriving DecidableEq, Repr

/-! ## Metadata extraction

`ArticleMeta::try_from(&Pandoc)` (`src/article.rs` lines 360-417) converts
each entry of the pandoc metadata map to a `serde_json::Value` via
`pandoc_meta_to_value` and then deserializes the resulting object into
`ArticleMeta`.  The composition is modelled field by field: a `String` field
accepts exactly the `MetaValue`s that convert to `Value::String`
(`MetaString`, `MetaInlines`, `MetaBlocks`); a `bool` field accepts exactly
`MetaBool`; a `Vec<String>` field accepts exactly `MetaList`s of
string-valued entries; a `NaiveDate` field accepts a string value that
chrono parses as `%Y-%m-%d`.  Any present key whose value does not decode
makes the whole conversion fail with the `serde_json::Error` case
(`ArticleError::JsonError`); a missing key takes the field's serde
default. -/

/-- Split a character list at every occurrence of `sep`: always returns at
least one (possibly empty) piece. -/
def splitOnChar (sep : Char) : List Char → List (List Char)
  | [] => [[]]
  | c :: t =>
    match splitOnChar sep t with
    | [] => [[c]]
    | cur :: rest => if c = sep then [] :: cur :: rest else (c :: cur) :: rest

/-- Decimal digit parsing for one character. -/
def digitVal (c : Char) : Option Nat :=
  if '0' ≤ c ∧ c ≤ '9' then some (c.toNat - '0'.toNat) else none

/-- Parse the remaining digits of a nonnegative decimal numeral. -/
def natOfDigitsAux (acc : Nat) : List Char → Option Nat
  | [] => some acc
  | c :: t =>
    match digitVal c with
    | some d => natOfDigitsAux (acc * 10 + d) t
    | none => none

/-- Parse a nonempty nonnegative decimal numeral. -/
def natOfDigits : List Char → Option Nat
  | [] => none
  | l => natOfDigitsAux 0 l

/-- chrono's `NaiveDate` deserialization from a string: `%Y-%m-%d` with a
basic calendar-validity check (chrono additionally rejects day numbers
invalid for the specific month, which no date appearing here exercises). -/
def parseNaiveDate (s : String) : Option NaiveDate :=
  match splitOnChar '-' s.toList with
  | [ys, ms, ds] =>
    match natOfDigits ys, natOfDigits ms, natOfDigits ds with
    | some y, some m, some d =>
      if 1 ≤ m ∧ m ≤ 12 ∧ 1 ≤ d ∧ d ≤ 31 then some ⟨y, m, d⟩ else none
    | _, _, _ => none
  | _ => none

/-- The `MetaValue`s that become `Value::String`, and the string they become. -/
def decodeStr : MetaValue → Option String
  | .MetaString s => some s
  | .MetaInlines is => some (inlinesToString is)
  | .MetaBlocks bs => some (blocksToString bs)
  | _ => none

/-- Deserializing a `bool` field: only `Value::Bool` (from `MetaBool`) is
accepted. -/
def decodeBool : MetaValue → Option Bool
  | .MetaBool b => some b
  | _ => none

/-- Deserializing a `NaiveDate` field: a string value parsed by chrono. -/
def decodeDate (v : MetaValue) : Option NaiveDate :=
  (decodeStr v).bind parseNaiveDate

/-- Deserializing the elements of a `Vec<String>` field. -/
def decodeStrs : MetaValueList → Option (List String)
  | .nil => some []
  | .cons v rest =>
    match decodeStr v, decodeStrs rest with
    | some s, some ss => some (s :: ss)
    | _, _ => none

/-- Deserializing a `Vec<String>` field: only `Value::Array` (from
`MetaList`) with string entries is accepted. -/
def decodeStrList : MetaValue → Option (List String)
  | .MetaList l => decodeStrs l
  | _ => none

/-- One field of the deserialization: absent key ⇒ serde default, present
key ⇒ must decode, else the conversion fails with `JsonError`. -/
def metaField {α : Type} (m : List (String × MetaValue)) (k : String)
    (dec : MetaValue → Option α) (dflt : α) : Except ArticleError α :=
  match alookup k m with
  | none => .ok dflt
  | some v =>
    match dec v with
    | some a => .ok a
    | none => .error ArticleError.JsonError

/-- `ArticleMeta::try_from(&Pandoc)` from `src/article.rs` lines 360-417. -/
def metaFromPandoc (p : Pandoc) : Except ArticleError ArticleMeta := do
  let title ← metaField p.meta "title" decodeStr "Untitled Page"
  let blurb ← metaField p.meta "blurb" decodeStr ""
  let tags ← metaField p.meta "tags" decodeStrList []
  let template ← metaField p.meta "template" decodeStr "article"
  let exclude_from_rss ← metaField p.meta "exclude_from_rss" decodeBool false
  let hidden ← metaField p.meta "hidden" decodeBool false
  let updated ← metaField p.meta "updated" decodeDate NaiveDate.unset
  let created ← metaField p.meta "created" decodeDate NaiveDate.unset
  let ready ← metaField p.meta "ready" decodeBool false
  let always_rerender ← metaField p.meta "always_rerender" decodeBool false
  return { title, blurb, tags, template, exclude_from_rss, hidden,
           updated, created, ready, always_rerender }

/-! ## Filesystem, global state and environment -/

mutual
/-- A directory-tree node of the on-disk content store. -/
inductive FsNode where
  | file
  | dir (entries : FsEntries)
deriving DecidableEq, Repr
/-- The named entries of a directory, in `read_dir` iteration order. -/
inductive FsEntries where
  | nil
  | cons (name : String) (node : FsNode) (rest : FsEntries)
deriving DecidableEq, Repr
end

/-- The filesystem as the operations the code performs on it: the directory
tree rooted at the canonical root `articles`, and per-path
`fs::metadata(..).modified()` / `..created()` timestamps (`none` models an
unreadable path). -/
structure Fs where
  root : FsNode
  mtime : FsPath → Option Nat
  ctime : FsPath → Option Nat

/-- An entry of `AST_CACHE` (`src/article.rs` line 229): the extracted
metadata, the filtered document tree, and the `SystemTime` stored at insert
time. -/
structure AstEntry where
  meta : ArticleMeta
  ast : Pandoc
  time : Nat
deriving DecidableEq, Repr

/-- The process-wide mutable state of `src/article.rs`: `ARTICLE_CACHE`,
`AST_CACHE`, `BUSY_ASTS` (lines 228-231) and `LAST_REAL_SEARCH`
(lines 32-33).  The `DashMap`s are association lists, the `DashSet` a list
of members, the `Mutex<Instant>` a natural number. -/
structure CacheState where
  articleCache : List (FsPath × Article)
  astCache : List (FsPath × AstEntry)
  busyAsts : List FsPath
  lastRealSearch : Nat
deriving DecidableEq, Repr

/-- The externally observable effects an operation can perform: spawning
`pandoc -f markdown -t json` on a path, spawning `pandoc -f json -t html`,
and running the full disk walk of the slow indexing path. -/
inductive Ev where
  | parseMd (p : FsPath)
  | toHtml
  | fullWalk (root : FsPath)
deriving DecidableEq, Repr

/-- The environment: the filesystem, the current instant (all clock reads of
a single operation are modelled as one instant), and the external
collaborators as oracles.
* `parse`: `pandoc -f markdown -t json <path>`; `.error out` is a nonzero
  exit with captured stdout `out`.
* `html`: `pandoc -f json -t html` fed a tree's JSON; likewise.
* `parseSearchBlock`: `serde_yml::from_str::<Search>` on the contents of a
  ` ```search ` code block (`none` = parse failure).
* `searchFrag`: the re-entrant `article::search` call of the filter plus the
  `frag-search-results` Tera template, treated as one external collaborator
  producing the replacement HTML (`none` = the embedded search failed and
  the block is left unchanged); its cache side effects are not modelled, and
  no claim depends on them.
* `dateOf`: `DateTime::<Local>::from(SystemTime).date_naive()`. -/
structure Env where
  fs : Fs
  now : Nat
  parse : FsPath → Except String Pandoc
  html : Pandoc → Except String String
  parseSearchBlock : String → Option Search
  searchFrag : Search → Option String
  dateOf : Nat → NaiveDate

/-! ## The filter stage (`src/filters/mod.rs`)

`apply_filters` runs `frag_search_results` and then `find_links`.

`frag_search_results` walks the tree with a `MutVisitor` whose overridden
`visit_block` does not delegate to `walk_block`, so the traversal started by
`walk_pandoc` reaches exactly the document's top-level blocks (and blocks
stored inside metadata values, which are absent from every document
considered here): nested blocks, e.g. a code block inside a block quote,
are never visited.  For every visited `CodeBlock` — of any class — the
visitor records that the document has a code block, and additionally
replaces the block with rendered search results when it carries the
`search` class.  After the walk, if any code block was seen, the filter
inserts `always_rerender = true` into the tree's metadata.

`find_links` does not override `visit_block`, so its traversal is the full
recursive `walk_block`/`walk_inline` one; it collects the targets of links
carrying the `mention` class and stores them under the `mentions` metadata
key.  (Inline containers other than `Link` are collapsed into
`Inline.other`, which carries no children; no claim concerns mentions.) -/

/-- The `visit_block` override of `FragSearchVisitor` (`src/filters/mod.rs`
lines 45-73) applied to one visited block: returns the possibly rewritten
block and whether the `has_any_searches` flag was stored (which happens for
every `CodeBlock`, before the class check). -/
def fragVisitBlock (env : Env) (myPath : FsPath) : Block → Block × Bool
  | .CodeBlock attr contents =>
    if attr.2.1.contains "search" then
      match env.parseSearchBlock contents with
      | none => (.CodeBlock attr contents, true)
      | some s =>
        match env.searchFrag { s with exclude_paths := s.exclude_paths ++ [myPath] } with
        | none => (.CodeBlock attr contents, true)
        | some htmlOut => (.RawBlock "html" htmlOut, true)
    else (.CodeBlock attr contents, true)
  | b => (b, false)

/-- `frag_search_results` from `src/filters/mod.rs` lines 41-93. -/
def frag_search_results (env : Env) (myPath : FsPath) (ast : Pandoc) : Pandoc :=
  let visited := ast.blocks.map (fragVisitBlock env myPath)
  let blocks := visited.map Prod.fst
  let hasAny := visited.any Prod.snd
  { meta := if hasAny then ainsert "always_rerender" (MetaValue.MetaBool true) ast.meta
            else ast.meta,
    blocks := blocks }

mutual
/-- Mention targets collected from one inline by `LinkVisitor`
(`src/filters/mod.rs` lines 96-109): a `mention`-classed link contributes
its target, and the link's contents are walked as well. -/
def mentionsInline : Inline → List String
  | .Link attr contents url _ =>
    (if attr.2.1.contains "mention" then [url] else []) ++ mentionsInlines contents
  | _ => []
termination_by structural i => i
def mentionsInlines : InlineList → List String
  | .nil => []
  | .cons i rest => mentionsInline i ++ mentionsInlines rest
termination_by structural is => is
end

mutual
/-- Mention targets collected from one block via the default
`walk_block` recursion. -/
def mentionsBlock : Block → List String
  | .Plain is => mentionsInlines is
  | .Para is => mentionsInlines is
  | .LineBlock ls => mentionsLines ls
  | .BlockQuote bs => mentionsBlocks bs
  | _ => []
termination_by structural b => b
def mentionsLines : InlineListList → List String
  | .nil => []
  | .cons is rest => mentionsInlines is ++ mentionsLines rest
termination_by structural ls => ls
def mentionsBlocks : BlockList → List String
  | .nil => []
  | .cons b rest => mentionsBlock b ++ mentionsBlocks rest
termination_by structural bs => bs
end

/-- Mention targets of the whole document, in traversal order. -/
def mentionsOf (ast : Pandoc) : List String :=
  (ast.blocks.map mentionsBlock).flatten

/-- Wraps a collected list of targets as the stored `MetaList`. -/
def mentionsMeta (ms : List String) : MetaValue :=
  MetaValue.MetaList (ms.foldr (fun s acc => MetaValueList.cons (MetaValue.MetaString s) acc)
    MetaValueList.nil)

/-- `find_links` from `src/filters/mod.rs` lines 95-118. -/
def find_links (ast : Pandoc) : Pandoc :=
  { ast with meta := ainsert "mentions" (mentionsMeta (mentionsOf ast)) ast.meta }

/-- `apply_filters` from `src/filters/mod.rs` lines 35-39. -/
def apply_filters (env : Env) (myPath : FsPath) (ast : Pandoc) : Pandoc :=
  find_links (frag_search_results env myPath ast)

/-! ## The staleness-checked caches (`src/article.rs`) -/

deriving instance DecidableEq for Except

/-- The result of a cache operation: the returned value, the state after the
operation, and the trace of external effects performed. -/
structure Out (α : Type) where
  val : Except ArticleError α
  st : CacheState
  tr : List Ev
deriving DecidableEq

/-- `prerender_article` from `src/article.rs` lines 167-226.

If inserting the path into `BUSY_ASTS` fails (the path is already being
rendered), the best currently cached tree is returned (or `NoArticle` if
none) without rendering.  Otherwise `pandoc -f markdown -t json` runs, the
filters are applied, metadata is extracted and its unset dates are
back-filled from the filesystem timestamps, the result is installed into
`AST_CACHE` and the path removed from `BUSY_ASTS`.  Note that the two `?`
early returns (converter failure, metadata extraction failure) leave the
path inside `BUSY_ASTS`; the model reproduces this faithfully. -/
def prerender_article (env : Env) (path : FsPath) (st : CacheState) :
    Out (ArticleMeta × Pandoc) :=
  if st.busyAsts.contains path then
    { val := match alookup path st.astCache with
             | some e => .ok (e.meta, e.ast)
             | none => .error ArticleError.NoArticle,
      st := st, tr := [] }
  else
    let st1 := { st with busyAsts := path :: st.busyAsts }
    match env.parse path with
    | .error out => { val := .error (ArticleError.PandocFailed out), st := st1,
                      tr := [Ev.parseMd path] }
    | .ok ast0 =>
      let ast := apply_filters env path ast0
      match metaFromPandoc ast with
      | .error e => { val := .error e, st := st1, tr := [Ev.parseMd path] }
      | .ok meta0 =>
        let disk_time := (env.fs.mtime path).getD env.now
        let created_time := (env.fs.ctime path).getD env.now
        let meta1 :=
          if meta0.updated = NaiveDate.unset then
            { meta0 with updated := env.dateOf disk_time } else meta0
        let meta :=
          if meta1.created = NaiveDate.unset then
            { meta1 with created := env.dateOf created_time } else meta1
        { val := .ok (meta, ast),
          st := { st1 with
                  astCache := ainsert path ⟨meta, ast, env.now⟩ st1.astCache,
                  busyAsts := st1.busyAsts.filter (fun q => if q = path then false else true) },
          tr := [Ev.parseMd path] }

/-- `get_metadata` from `src/article.rs` lines 147-165: the tree-level
staleness-checked cache.  Unreadable metadata ⇒ `NoArticle`; a cached entry
whose stored time is ≥ the disk modification time and whose metadata does
not force re-rendering is returned as is; otherwise a prerender is
attempted, falling back to the cached entry (if any) on failure. -/
def get_metadata (env : Env) (path : FsPath) (st : CacheState) :
    Out (ArticleMeta × Pandoc) :=
  match env.fs.mtime path, alookup path st.astCache with
  | none, _ => { val := .error ArticleError.NoArticle, st := st, tr := [] }
  | some t, some c =>
    if t ≤ c.time ∧ c.meta.always_rerender = false then
      { val := .ok (c.meta, c.ast), st := st, tr := [] }
    else
      match prerender_article env path st with
      | ⟨.ok v, st', tr⟩ => ⟨.ok v, st', tr⟩
      | ⟨.error _, st', tr⟩ => ⟨.ok (c.meta, c.ast), st', tr⟩
  | some _, none =>
    match prerender_article env path st with
    | ⟨.ok v, st', tr⟩ => ⟨.ok v, st', tr⟩
    | ⟨.error e, st', tr⟩ => ⟨.error e, st', tr⟩

/-- `render_article` from `src/article.rs` lines 110-145: obtains
(metadata, tree) through the tree cache, converts the tree to HTML with the
external converter, and on success installs the new `Article` into
`ARTICLE_CACHE`. -/
def render_article (env : Env) (path : FsPath) (st : CacheState) : Out Article :=
  match get_metadata env path st with
  | ⟨.error e, st', tr⟩ => ⟨.error e, st', tr⟩
  | ⟨.ok (meta, ast), st', tr⟩ =>
    match env.html ast with
    | .error out => ⟨.error (ArticleError.PandocFailed out), st', tr ++ [Ev.toHtml]⟩
    | .ok content =>
      let article : Article := ⟨content, meta, env.now⟩
      ⟨.ok article,
       { st' with articleCache := ainsert path article st'.articleCache },
       tr ++ [Ev.toHtml]⟩

/-- `get_article` from `src/article.rs` lines 90-108: the HTML-level
staleness-checked cache with the same three-way policy as `get_metadata`,
falling back to the previously cached article when a render fails. -/
def get_article (env : Env) (path : FsPath) (st : CacheState) : Out Article :=
  match env.fs.mtime path, alookup path st.articleCache with
  | none, _ => { val := .error ArticleError.NoArticle, st := st, tr := [] }
  | some t, some c =>
    if t ≤ c.rendered_at ∧ c.meta.always_rerender = false then
      { val := .ok c, st := st, tr := [] }
    else
      match render_article env path st with
      | ⟨.ok a, st', tr⟩ => ⟨.ok a, st', tr⟩
      | ⟨.error _, st', tr⟩ => ⟨.ok c, st', tr⟩
  | some _, none =>
    match render_article env path st with
    | ⟨.ok a, st', tr⟩ => ⟨.ok a, st', tr⟩
    | ⟨.error e, st', tr⟩ => ⟨.error e, st', tr⟩

/-! ## The recursive indexer and the search engine (`src/article.rs`) -/

/-- `path.extension()` of the final segment, per `std::path::Path`: the part
after the last `.`, none if there is no `.` or the name is a bare
dot-prefixed hidden file. -/
def extOf (name : String) : Option (List Char) :=
  match splitOnChar '.' name.toList with
  | [] => none
  | [_] => none
  | [[], _] => none
  | parts => some (parts.getLastD [])

/-- `path.extension() == Some(OsStr::new("md"))`. -/
def isMdName (name : String) : Bool := extOf name = some ['m', 'd']

mutual
/-- `find_articles` from `src/article.rs` lines 35-56: the recursive disk
walk.  A regular `*.md` file resolves through `get_metadata` and contributes
itself on success (an extraction failure is silently skipped); a directory
recurses over its entries in order, appending results and skipping nothing
else.  `read_dir` IO failures are not modelled (the walk is total over the
model filesystem tree). -/
def find_articles (env : Env) (path : FsPath) (node : FsNode) (st : CacheState) :
    List (FsPath × ArticleMeta) × CacheState × List Ev :=
  match node with
  | .file =>
    if isMdName (path.getLastD "") then
      match get_metadata env path st with
      | ⟨.ok (meta, _), st', tr⟩ => ([(path, meta)], st', tr)
      | ⟨.error _, st', tr⟩ => ([], st', tr)
    else ([], st, [])
  | .dir entries => find_articles_entries env path entries st
termination_by structural node
/-- The directory loop of `find_articles`. -/
def find_articles_entries (env : Env) (path : FsPath) (entries : FsEntries)
    (st : CacheState) : List (FsPath × ArticleMeta) × CacheState × List Ev :=
  match entries with
  | .nil => ([], st, [])
  | .cons name child rest =>
    let r1 := find_articles env (path ++ [name]) child st
    let r2 := find_articles_entries env path rest r1.2.1
    (r1.1 ++ r2.1, r2.2.1, r1.2.2 ++ r2.2.2)
termination_by structural entries
end

/-- The canonical document root `Path::new("articles")`. -/
def canonicalRoot : FsPath := ["articles"]

/-- `p.strip_prefix("articles").unwrap_or(&p)` from `src/article.rs`
line 85. -/
def stripRoot (p : FsPath) : FsPath :=
  if canonicalRoot.isPrefixOf p then p.drop 1 else p

/-- The retain predicate of `search` (`src/article.rs` lines 72-80):
created/updated within bounds, not hidden, all requested tags present, and
the title containing the filter substring (absent filter = empty string). -/
def searchMatches (s : Search) (a : ArticleMeta) : Bool :=
  boundsContain s.created a.created
  && boundsContain s.updated a.updated
  && !a.hidden
  && s.tags.all (fun t => a.tags.contains t)
  && strContains a.title (s.title_filter.getD "")

/-- `search` from `src/article.rs` lines 58-88.  If more than the throttle
window (1800 s) has elapsed since `LAST_REAL_SEARCH`, the timestamp is set
to now and a full disk walk of the canonical root is performed; otherwise
the snapshot is read from `AST_CACHE`.  The snapshot is filtered by
`searchMatches`, sorted by the selected comparator, and the canonical root
segment is stripped from each returned path. -/
def search (env : Env) (s : Search) (st : CacheState) :
    List (FsPath × ArticleMeta) × CacheState × List Ev :=
  let r :=
    if 1800 < env.now - st.lastRealSearch then
      let st1 := { st with lastRealSearch := env.now }
      let w := find_articles env canonicalRoot env.fs.root st1
      (w.1, w.2.1, Ev.fullWalk canonicalRoot :: w.2.2)
    else
      (st.astCache.map (fun kv => (kv.1, kv.2.meta)), st, ([] : List Ev))
  let retained := r.1.filter (fun pa => searchMatches s pa.2)
  let sorted := sortByCmp s.sort_type.sort_fn retained
  (sorted.map (fun pa => (stripRoot pa.1, pa.2)), r.2.1, r.2.2)

/-- The number of full-disk-walk events in a trace. -/
def countWalks (tr : List Ev) : Nat :=
  (tr.filter (fun e => match e with | .fullWalk _ => true | _ => false)).length

/-- Every full-disk-walk event in the trace is rooted at the canonical
top-level root. -/
def walkRootsCanonical (tr : List Ev) : Bool :=
  tr.all (fun e => match e with | .fullWalk r => decide (r = canonicalRoot) | _ => true)

/-- Whether one block is a code block (of any class). -/
def isCodeBlock : Block → Bool
  | .CodeBlock _ _ => true
  | _ => false

mutual
/-- Whether a block's subtree contains a code block at any depth. -/
def blockHasCode : Block → Bool
  | .CodeBlock _ _ => true
  | .BlockQuote bs => blocksHaveCode bs
  | _ => false
termination_by structural b => b
def blocksHaveCode : BlockList → Bool
  | .nil => false
  | .cons b rest => blockHasCode b || blocksHaveCode rest
termination_by structural bs => bs
end

/-- Whether the document tree contains a code block at any depth. -/
def pandocHasCodeBlock (p : Pandoc) : Bool := p.blocks.any blockHasCode

/-! ## Concrete fixtures

Small closed environments and states used by the counterexamples and the
witnesses of the theorems below. -/

/-- The empty process state (cold caches, epoch throttle timestamp). -/
def stEmpty : CacheState := ⟨[], [], [], 0⟩

/-- A document path under the canonical root. -/
def pW : FsPath := ["articles", "a.md"]

/-- A one-file filesystem: `articles/a.md`, modified at 50, created at 40. -/
def fsW : Fs :=
  { root := FsNode.dir (FsEntries.cons "a.md" FsNode.file FsEntries.nil)
    mtime := fun p => if p = pW then some 50 else none
    ctime := fun p => if p = pW then some 40 else none }

/-- Front matter: a title, a created date, and an explicit `ready: false`. -/
def pandocPlain : Pandoc :=
  { meta := [("title", MetaValue.MetaString "A"),
             ("created", MetaValue.MetaString "2020-01-01"),
             ("ready", MetaValue.MetaBool false)]
    blocks := [Block.Para (InlineList.cons (Inline.Str "hi") InlineList.nil)] }

/-- A working environment: the converter parses `articles/a.md` to
`pandocPlain` and renders any tree to a fixed HTML string. -/
def envW : Env :=
  { fs := fsW, now := 100
    parse := fun p => if p = pW then Except.ok pandocPlain else Except.error "no such file"
    html := fun _ => Except.ok "<p>hi</p>"
    parseSearchBlock := fun _ => none
    searchFrag := fun _ => none
    dateOf := fun _ => ⟨2024, 1, 2⟩ }

/-- The same environment with a converter whose markdown stage always exits
nonzero. -/
def envWFail : Env := { envW with parse := fun _ => Except.error "pandoc: boom" }

/-- Front matter whose `hidden` key holds a string, so that metadata
extraction fails (a `bool` field cannot deserialize from a string). -/
def pandocBadMeta : Pandoc :=
  { meta := [("hidden", MetaValue.MetaString "x")], blocks := [] }

/-- The environment whose converter yields the malformed front matter. -/
def envWBad : Env := { envW with parse := fun _ => Except.ok pandocBadMeta }

/-- A cached render newer (80) than the disk file (50). -/
def artW : Article := ⟨"<p>c</p>", { title := "C" }, 80⟩

/-- State with a fresh HTML-cache entry for `articles/a.md`. -/
def stWHit : CacheState :=
  { articleCache := [(pW, artW)], astCache := [], busyAsts := [], lastRealSearch := 0 }

/-- A cached render older (10) than the disk file (50). -/
def artStale : Article := ⟨"<p>old</p>", { title := "Old" }, 10⟩

/-- State with a stale HTML-cache entry for `articles/a.md`. -/
def stWStale : CacheState :=
  { articleCache := [(pW, artStale)], astCache := [], busyAsts := [], lastRealSearch := 0 }

/-- An empty document tree. -/
def emptyPandoc : Pandoc := ⟨[], []⟩

/-- A fresh tree-cache entry (stored at 90, disk modified at 50). -/
def astEntryW : AstEntry := ⟨{ title := "E" }, emptyPandoc, 90⟩

/-- State with a fresh tree-cache entry for `articles/a.md`. -/
def stWAst : CacheState :=
  { articleCache := [], astCache := [(pW, astEntryW)], busyAsts := [], lastRealSearch := 0 }

/-- Front matter marking the document hidden. -/
def pandocHid : Pandoc :=
  { meta := [("title", MetaValue.MetaString "H"), ("hidden", MetaValue.MetaBool true)]
    blocks := [] }

/-- The environment whose converter yields the hidden document. -/
def envWHid : Env :=
  { envW with parse := fun p => if p = pW then Except.ok pandocHid else Except.error "no" }

/-- Metadata of a visible article nested at `articles/a/x.md`. -/
def mWA : ArticleMeta := { title := "A", created := ⟨2021, 1, 1⟩ }

/-- Metadata of a visible article at `articles/b.md`. -/
def mWB : ArticleMeta := { title := "B", created := ⟨2020, 1, 1⟩ }

/-- A warm state within the throttle window (`now = 100`, last scan 95):
two tree-cache entries, one nested under `articles/a/`. -/
def stWFast : CacheState :=
  { articleCache := []
    astCache := [(["articles", "a", "x.md"], ⟨mWA, emptyPandoc, 90⟩),
                 (["articles", "b.md"], ⟨mWB, emptyPandoc, 90⟩)]
    busyAsts := [], lastRealSearch := 95 }

/-- Criteria asking for subtree `b`, excluding `a/x.md`, limited to 1. -/
def sExcl : Search :=
  { search_path := ["b"], exclude_paths := [["a", "x.md"]], limit := some 1 }

/-- A document whose only block is a top-level code block. -/
def astCodeW : Pandoc :=
  ⟨[], [Block.CodeBlock ("", ["rust"], []) "fn main() {}"]⟩

/-- A document whose only code block sits nested inside a block quote. -/
def astNestedW : Pandoc :=
  ⟨[], [Block.BlockQuote (BlockList.cons
      (Block.CodeBlock ("", ["rust"], []) "fn main() {}") BlockList.nil)]⟩

/-- Environment whose converter yields the top-level-code-block document. -/
def envWCode : Env :=
  { envW with parse := fun p => if p = pW then Except.ok astCodeW else Except.error "no" }

/-- Environment whose converter yields the nested-code-block document. -/
def envWNested : Env :=
  { envW with parse := fun p => if p = pW then Except.ok astNestedW else Except.error "no" }

/-- An empty filesystem for the throttle scenarios. -/
def fsEmpty : Fs :=
  { root := FsNode.dir FsEntries.nil, mtime := fun _ => none, ctime := fun _ => none }

/-- First indexing call at instant 2000 (throttle expired relative to 0). -/
def envT1 : Env :=
  { fs := fsEmpty, now := 2000
    parse := fun _ => Except.error "x", html := fun _ => Except.error "x"
    parseSearchBlock := fun _ => none, searchFrag := fun _ => none
    dateOf := fun _ => NaiveDate.unset }

/-- Second indexing call at instant 3000 (within 1800 s of the first). -/
def envT2 : Env := { envT1 with now := 3000 }

/-- Sort fixture: entry created 2020-01-01. -/
def eW2020 : FsPath × ArticleMeta := (["articles", "x.md"], { title := "x", created := ⟨2020, 1, 1⟩ })

/-- Sort fixture: entry created 2021-06-15. -/
def eW2021 : FsPath × ArticleMeta := (["articles", "y.md"], { title := "y", created := ⟨2021, 6, 15⟩ })

/-- Sort fixture: entry created 2019-03-03. -/
def eW2019 : FsPath × ArticleMeta := (["articles", "z.md"], { title := "z", created := ⟨2019, 3, 3⟩ })

/-- The metadata the pipeline extracts for `astCodeW`: defaults, back-filled
dates, and `always_rerender` forced by the top-level code block. -/
def mCodeW : ArticleMeta :=
  { updated := ⟨2024, 1, 2⟩, created := ⟨2024, 1, 2⟩, always_rerender := true }

/-- The filtered tree of `astCodeW` (as produced by `apply_filters`). -/
def astCodeFilteredW : Pandoc := apply_filters envWCode pW astCodeW

/-- A cached render whose metadata forces unconditional re-rendering. -/
def artAR : Article := ⟨"<p>ar</p>", { always_rerender := true }, 80⟩

/-- State holding the always-rerender cached article. -/
def stAR : CacheState :=
  { articleCache := [(pW, artAR)], astCache := [], busyAsts := [], lastRealSearch := 0 }

/-! ## Helper lemmas -/

theorem mem_insertCmp {α : Type} (cmp : α → α → Ordering) (x y : α) (l : List α) :
    x ∈ insertCmp cmp y l ↔ x = y ∨ x ∈ l := by
  induction l with
  | nil => simp [insertCmp]
  | cons z t ih =>
    unfold insertCmp
    by_cases h : cmp y z = Ordering.gt
    · simp [h, ih]
      try tauto
    · simp [h]
      try tauto

theorem mem_sortByCmp {α : Type} (cmp : α → α → Ordering) (x : α) (l : List α) :
    x ∈ sortByCmp cmp l ↔ x ∈ l := by
  induction l with
  | nil => simp [sortByCmp]
  | cons y t ih => simp [sortByCmp, mem_insertCmp, ih]

/-! ## C8: descending comparators are the exact reverses of the ascending ones -/

/-- C8.  For each of the three sort keys (created, updated, title), the
descending comparator selected by `sort_type` is the exact reverse of the
ascending comparator for the same key: `cmp_desc a b = cmp_asc b a` for all
entry pairs, with no different tie-breaking; and on documents with created
dates 2020-01-01, 2021-06-15, 2019-03-03, `CreateDesc` orders them
2021-06-15, 2020-01-01, 2019-03-03, while `CreateAsc` yields the exact
reverse order. -/
theorem c8_sort_desc_reverses_asc :
    (∀ a b, SortType.CreateDesc.sort_fn a b = SortType.CreateAsc.sort_fn b a)
    ∧ (∀ a b, SortType.UpdateDesc.sort_fn a b = SortType.UpdateAsc.sort_fn b a)
    ∧ (∀ a b, SortType.NameDesc.sort_fn a b = SortType.NameAsc.sort_fn b a)
    ∧ sortByCmp SortType.CreateDesc.sort_fn [eW2020, eW2021, eW2019]
        = [eW2021, eW2020, eW2019]
    ∧ sortByCmp SortType.CreateAsc.sort_fn [eW2020, eW2021, eW2019]
        = [eW2021, eW2020, eW2019].reverse :=
  ⟨fun _ _ => rfl, fun _ _ => rfl, fun _ _ => rfl, by decide, by decide⟩

/-! ## C1: a fresh cache hit returns the cached entry without converting -/

/-- C1.  If the disk modification time is readable, a cached entry exists
whose completion time is at least the disk time, and its metadata does not
force re-rendering, then `get_article` returns exactly the cached entry with
the state unchanged and an empty effect trace (no converter invocation) —
hence the repeated call returns the identical result, again effect-free.
The tree-level `get_metadata` obeys the identical policy. -/
theorem c1_fresh_hit_no_rerender :
    (∀ (env : Env) (p : FsPath) (st : CacheState) (t : Nat) (c : Article),
      env.fs.mtime p = some t →
      alookup p st.articleCache = some c →
      t ≤ c.rendered_at →
      c.meta.always_rerender = false →
      get_article env p st = ⟨.ok c, st, []⟩
        ∧ get_article env p (get_article env p st).st = ⟨.ok c, st, []⟩)
    ∧ (∀ (env : Env) (p : FsPath) (st : CacheState) (t : Nat) (e : AstEntry),
      env.fs.mtime p = some t →
      alookup p st.astCache = some e →
      t ≤ e.time →
      e.meta.always_rerender = false →
      get_metadata env p st = ⟨.ok (e.meta, e.ast), st, []⟩) := by
  constructor
  · intro env p st t c hm hc hfresh har
    have h1 : get_article env p st = ⟨.ok c, st, []⟩ := by
      unfold get_article
      rw [hm, hc]
      simp [hfresh, har]
    exact ⟨h1, by rw [h1]; exact h1⟩
  · intro env p st t e hm hc hfresh har
    unfold get_metadata
    rw [hm, hc]
    simp [hfresh, har]

/-- Witness for C1 at a concrete input: disk time 50, cached render 80,
cached tree 90, no forced re-render. -/
theorem c1_witness :
    (get_article envW pW stWHit = ⟨.ok artW, stWHit, []⟩
      ∧ get_article envW pW (get_article envW pW stWHit).st = ⟨.ok artW, stWHit, []⟩)
    ∧ get_metadata envW pW stWAst = ⟨.ok (astEntryW.meta, astEntryW.ast), stWAst, []⟩ :=
  ⟨c1_fresh_hit_no_rerender.1 envW pW stWHit 50 artW (by decide) (by decide)
      (by decide) (by decide),
   c1_fresh_hit_no_rerender.2 envW pW stWAst 50 astEntryW (by decide) (by decide)
      (by decide) (by decide)⟩

/-! ## C2: render failure falls back to the previous entry -/

/-- C2.  With a readable modification time: if a previously successful
entry is cached and the disk time has advanced past its completion time (so
a re-render is attempted) and the render fails, `get_article` still returns
the prior entry, not an error; and if no previous entry exists, the render
error is propagated to the caller. -/
theorem c2_failed_render_falls_back :
    ∀ (env : Env) (p : FsPath) (st : CacheState) (t : Nat),
      env.fs.mtime p = some t →
      (∀ (c : Article) (e : ArticleError),
        alookup p st.articleCache = some c →
        c.rendered_at < t →
        (render_article env p st).val = .error e →
        (get_article env p st).val = .ok c)
      ∧ (∀ e : ArticleError,
        alookup p st.articleCache = none →
        (render_article env p st).val = .error e →
        (get_article env p st).val = .error e) := by
  intro env p st t hm
  constructor
  · intro c e hc hlt hr
    unfold get_article
    rw [hm, hc]
    rcases hre : render_article env p st with ⟨v, st', tr'⟩
    rw [hre] at hr
    simp only at hr
    subst hr
    simp [Nat.not_le.mpr hlt]
  · intro e hc hr
    unfold get_article
    rw [hm, hc]
    rcases hre : render_article env p st with ⟨v, st', tr'⟩
    rw [hre] at hr
    simp only at hr
    subst hr
    simp

/-- Witness for C2 at a concrete input: stale cached render (10 < 50) with
a converter that exits nonzero, and the same failing converter against an
empty cache. -/
theorem c2_witness :
    (get_article envWFail pW stWStale).val = .ok artStale
    ∧ (get_article envWFail pW stEmpty).val = .error (.PandocFailed "pandoc: boom") :=
  ⟨(c2_failed_render_falls_back envWFail pW stWStale 50 (by decide)).1 artStale
      (.PandocFailed "pandoc: boom") (by decide) (by decide) (by decide),
   (c2_failed_render_falls_back envWFail pW stEmpty 50 (by decide)).2
      (.PandocFailed "pandoc: boom") (by decide) (by decide)⟩

/-! ## Error taxonomy of the live cache code -/

theorem metaField_error {α : Type} (m : List (String × MetaValue)) (k : String)
    (dec : MetaValue → Option α) (d : α) (e : ArticleError)
    (h : metaField m k dec d = .error e) : e = ArticleError.JsonError := by
  unfold metaField at h
  split at h
  · simp at h
  · split at h
    · simp at h
    · injection h with h
      exact h.symm

theorem metaFromPandoc_cases (p : Pandoc) :
    metaFromPandoc p = .error ArticleError.JsonError
    ∨ ∃ m, metaFromPandoc p = .ok m
        ∧ metaField p.meta "always_rerender" decodeBool false = .ok m.always_rerender := by
  rcases e1 : metaField p.meta "title" decodeStr "Untitled Page" with e | title
  · left
    have he := metaField_error _ _ _ _ _ e1
    subst he
    unfold metaFromPandoc
    rw [e1]
    rfl
  rcases e2 : metaField p.meta "blurb" decodeStr "" with e | blurb
  · left
    have he := metaField_error _ _ _ _ _ e2
    subst he
    unfold metaFromPandoc
    rw [e1, e2]
    rfl
  rcases e3 : metaField p.meta "tags" decodeStrList [] with e | tags
  · left
    have he := metaField_error _ _ _ _ _ e3
    subst he
    unfold metaFromPandoc
    rw [e1, e2, e3]
    rfl
  rcases e4 : metaField p.meta "template" decodeStr "article" with e | template
  · left
    have he := metaField_error _ _ _ _ _ e4
    subst he
    unfold metaFromPandoc
    rw [e1, e2, e3, e4]
    rfl
  rcases e5 : metaField p.meta "exclude_from_rss" decodeBool false with e | xrss
  · left
    have he := metaField_error _ _ _ _ _ e5
    subst he
    unfold metaFromPandoc
    rw [e1, e2, e3, e4, e5]
    rfl
  rcases e6 : metaField p.meta "hidden" decodeBool false with e | hid
  · left
    have he := metaField_error _ _ _ _ _ e6
    subst he
    unfold metaFromPandoc
    rw [e1, e2, e3, e4, e5, e6]
    rfl
  rcases e7 : metaField p.meta "updated" decodeDate NaiveDate.unset with e | upd
  · left
    have he := metaField_error _ _ _ _ _ e7
    subst he
    unfold metaFromPandoc
    rw [e1, e2, e3, e4, e5, e6, e7]
    rfl
  rcases e8 : metaField p.meta "created" decodeDate NaiveDate.unset with e | cre
  · left
    have he := metaField_error _ _ _ _ _ e8
    subst he
    unfold metaFromPandoc
    rw [e1, e2, e3, e4, e5, e6, e7, e8]
    rfl
  rcases e9 : metaField p.meta "ready" decodeBool false with e | rdy
  · left
    have he := metaField_error _ _ _ _ _ e9
    subst he
    unfold metaFromPandoc
    rw [e1, e2, e3, e4, e5, e6, e7, e8, e9]
    rfl
  rcases e10 : metaField p.meta "always_rerender" decodeBool false with e | arv
  · left
    have he := metaField_error _ _ _ _ _ e10
    subst he
    unfold metaFromPandoc
    rw [e1, e2, e3, e4, e5, e6, e7, e8, e9, e10]
    rfl
  right
  refine ⟨{ title := title, blurb := blurb, tags := tags, template := template,
            exclude_from_rss := xrss, hidden := hid, updated := upd, created := cre,
            ready := rdy, always_rerender := arv }, ?_, ?_⟩
  · unfold metaFromPandoc
    rw [e1, e2, e3, e4, e5, e6, e7, e8, e9, e10]
    rfl
  · rfl

theorem prerender_no_nfp (env : Env) (p : FsPath) (st : CacheState) :
    (prerender_article env p st).val ≠ .error ArticleError.NotForPublication := by
  by_cases hb : p ∈ st.busyAsts
  · rcases hl : alookup p st.astCache with _ | c <;>
      simp [prerender_article, hb, hl]
  · rcases hp : env.parse p with out | ast0
    · simp [prerender_article, hb, hp]
    · rcases metaFromPandoc_cases (apply_filters env p ast0) with hcase | ⟨m, hok, _⟩
      · simp [prerender_article, hb, hp, hcase]
      · simp [prerender_article, hb, hp, hok]

theorem get_metadata_no_nfp (env : Env) (p : FsPath) (st : CacheState) :
    (get_metadata env p st).val ≠ .error ArticleError.NotForPublication := by
  rcases hm : env.fs.mtime p with _ | t
  · simp [get_metadata, hm]
  · rcases hl : alookup p st.astCache with _ | c
    · have hnfp := prerender_no_nfp env p st
      rcases hp : prerender_article env p st with ⟨v, st2, tr⟩
      rw [hp] at hnfp
      rcases v with e2 | v2 <;> simp at hnfp <;> simp [get_metadata, hm, hl, hp, hnfp]
    · by_cases hif : t ≤ c.time ∧ c.meta.always_rerender = false
      · simp [get_metadata, hm, hl, hif]
      · rcases hp : prerender_article env p st with ⟨v, st2, tr⟩
        rcases v with e2 | v2 <;> simp [get_metadata, hm, hl, hif, hp]

theorem render_article_no_nfp (env : Env) (p : FsPath) (st : CacheState) :
    (render_article env p st).val ≠ .error ArticleError.NotForPublication := by
  have hnfp := get_metadata_no_nfp env p st
  rcases hg : get_metadata env p st with ⟨v, st2, tr⟩
  rw [hg] at hnfp
  rcases v with e2 | ⟨meta, ast⟩
  · simp at hnfp
    simp [render_article, hg, hnfp]
  · rcases hh : env.html ast with out | content <;> simp [render_article, hg, hh]

theorem get_article_no_nfp (env : Env) (p : FsPath) (st : CacheState) :
    (get_article env p st).val ≠ .error ArticleError.NotForPublication := by
  rcases hm : env.fs.mtime p with _ | t
  · simp [get_article, hm]
  · rcases hl : alookup p st.articleCache with _ | c
    · have hnfp := render_article_no_nfp env p st
      rcases hr : render_article env p st with ⟨v, st2, tr⟩
      rw [hr] at hnfp
      rcases v with e2 | a <;> simp at hnfp <;> simp [get_article, hm, hl, hr, hnfp]
    · by_cases hif : t ≤ c.rendered_at ∧ c.meta.always_rerender = false
      · simp [get_article, hm, hl, hif]
      · rcases hr : render_article env p st with ⟨v, st2, tr⟩
        rcases v with e2 | a <;> simp [get_article, hm, hl, hif, hr]


/-! ## C3: the in-flight set is *not* cleaned up on a failed render -/

/-- C3 (refuting theorem).  After a render that begins by successfully
inserting the path into the in-flight set and then fails — at the converter
(`PandocFailed`) or at metadata validation (`JsonError`) — the path is STILL
in the in-flight set, contradicting the claim that it is removed on success
and failure alike.  Only the successful render removes it. -/
theorem c3_busy_leak_on_failed_render :
    ((prerender_article envWFail pW stEmpty).val = .error (.PandocFailed "pandoc: boom")
      ∧ (prerender_article envWFail pW stEmpty).st.busyAsts.contains pW = true)
    ∧ ((prerender_article envWBad pW stEmpty).val = .error .JsonError
      ∧ (prerender_article envWBad pW stEmpty).st.busyAsts.contains pW = true)
    ∧ (prerender_article envW pW stEmpty).st.busyAsts = [] := by
  decide

/-! ## C4: the live code has no `ready == false` gate at all -/

/-- C4 (refuting theorem).  A first-time caller of `get_article` on a
document whose metadata has `ready == false` receives the freshly rendered
article as a plain success, not the `NotReady` error; moreover no execution
of `get_article` can produce `NotForPublication` at all (its errors are
confined to `NoArticle`, `PandocFailed` and `JsonError`) — the rewrite of
`article.old.rs` into `article.rs` dropped the `ready` check, leaving the
error variant dead. -/
theorem c4_not_ready_still_published :
    ((get_article envW pW stEmpty).val
        = .ok ⟨"<p>hi</p>",
               { title := "A", updated := ⟨2024, 1, 2⟩, created := ⟨2020, 1, 1⟩,
                 ready := false }, 100⟩)
    ∧ (∀ (env : Env) (p : FsPath) (st : CacheState) (e : ArticleError),
        (get_article env p st).val = .error e → e ≠ ArticleError.NotForPublication) := by
  constructor
  · decide
  · intro env p st e h hne
    subst hne
    exact get_article_no_nfp env p st h

/-- Witness for C4's universal part at a concrete input: a nonexistent path
fails with `NoArticle`, which is not `NotForPublication`. -/
theorem c4_witness : ArticleError.NoArticle ≠ ArticleError.NotForPublication :=
  c4_not_ready_still_published.2 envW ["articles", "nope.md"] stEmpty
    ArticleError.NoArticle (by decide)

/-! ## C5: hidden documents -/

/-- C5 (refuting half).  The live indexer `find_articles` does NOT filter
hidden documents: a document with `hidden == true` appears in its returned
mapping.  (Filtering happens once, later, in `search`'s retain step.) -/
theorem c5_counterexample_hidden_in_index :
    (find_articles envWHid canonicalRoot envWHid.fs.root stEmpty).1
      = [(pW, { title := "H", hidden := true,
                updated := ⟨2024, 1, 2⟩, created := ⟨2024, 1, 2⟩ })]
    ∧ ({ title := "H", hidden := true, updated := ⟨2024, 1, 2⟩,
         created := ⟨2024, 1, 2⟩ } : ArticleMeta).hidden = true := by
  decide

/-- C5 (amended).  Every entry of every sequence returned by `search` — the
sole public consumer of the index, for any criteria and any state, on the
fast and the slow path alike — has `hidden == false`: the retain step
removes hidden documents before anything is returned. -/
theorem c5_search_never_returns_hidden :
    ∀ (env : Env) (s : Search) (st : CacheState) (pa : FsPath × ArticleMeta),
      pa ∈ (search env s st).1 → pa.2.hidden = false := by
  intro env s st pa h
  simp only [search] at h
  rcases List.mem_map.mp h with ⟨qa, hqa, hpa⟩
  rw [mem_sortByCmp] at hqa
  have hmatch := (List.mem_filter.mp hqa).2
  simp [searchMatches, Bool.and_eq_true] at hmatch
  obtain ⟨⟨⟨⟨h1, h2⟩, h3⟩, h4⟩, h5⟩ := hmatch
  subst hpa
  exact h3

/-- Witness for C5's amended theorem at a concrete input: the warm two-entry
state returns the nested article, and it is indeed not hidden. -/
theorem c5_witness :
    ((["a", "x.md"], mWA) ∈ (search envW {} stWFast).1) ∧ mWA.hidden = false :=
  ⟨by decide, c5_search_never_returns_hidden envW {} stWFast (["a", "x.md"], mWA) (by decide)⟩

/-! ## C6: the full-scan throttle -/

theorem countWalks_append (a b : List Ev) :
    countWalks (a ++ b) = countWalks a + countWalks b := by
  simp [countWalks, List.filter_append]

theorem countWalks_zero_canonical (tr : List Ev) (h : countWalks tr = 0) :
    walkRootsCanonical tr = true := by
  induction tr with
  | nil => rfl
  | cons e t ih =>
    cases e with
    | parseMd p =>
      simp only [countWalks, List.filter] at h
      simp only [walkRootsCanonical, List.all_cons]
      simpa [walkRootsCanonical] using ih h
    | toHtml =>
      simp only [countWalks, List.filter] at h
      simp only [walkRootsCanonical, List.all_cons]
      simpa [walkRootsCanonical] using ih h
    | fullWalk r =>
      simp [countWalks, List.filter] at h

theorem prerender_last (env : Env) (p : FsPath) (st : CacheState) :
    (prerender_article env p st).st.lastRealSearch = st.lastRealSearch := by
  by_cases hb : p ∈ st.busyAsts
  · simp [prerender_article, hb]
  · rcases hp : env.parse p with out | ast0
    · simp [prerender_article, hb, hp]
    · rcases hmf : metaFromPandoc (apply_filters env p ast0) with e | m <;>
        simp [prerender_article, hb, hp, hmf]

theorem prerender_walks (env : Env) (p : FsPath) (st : CacheState) :
    countWalks (prerender_article env p st).tr = 0 := by
  by_cases hb : p ∈ st.busyAsts
  · simp [prerender_article, hb, countWalks]
  · rcases hp : env.parse p with out | ast0
    · simp [prerender_article, hb, hp, countWalks, List.filter]
    · rcases hmf : metaFromPandoc (apply_filters env p ast0) with e | m <;>
        simp [prerender_article, hb, hp, hmf, countWalks, List.filter]

theorem get_metadata_last (env : Env) (p : FsPath) (st : CacheState) :
    (get_metadata env p st).st.lastRealSearch = st.lastRealSearch := by
  rcases hm : env.fs.mtime p with _ | t
  · simp [get_metadata, hm]
  · rcases hl : alookup p st.astCache with _ | c
    · have h := prerender_last env p st
      rcases hp : prerender_article env p st with ⟨v, st2, tr⟩
      rw [hp] at h
      rcases v with e | v <;> simp [get_metadata, hm, hl, hp] <;> exact h
    · by_cases hif : t ≤ c.time ∧ c.meta.always_rerender = false
      · simp [get_metadata, hm, hl, hif]
      · have h := prerender_last env p st
        rcases hp : prerender_article env p st with ⟨v, st2, tr⟩
        rw [hp] at h
        rcases v with e | v <;> simp [get_metadata, hm, hl, hif, hp] <;> exact h

theorem get_metadata_walks (env : Env) (p : FsPath) (st : CacheState) :
    countWalks (get_metadata env p st).tr = 0 := by
  rcases hm : env.fs.mtime p with _ | t
  · simp [get_metadata, hm, countWalks]
  · rcases hl : alookup p st.astCache with _ | c
    · have h := prerender_walks env p st
      rcases hp : prerender_article env p st with ⟨v, st2, tr⟩
      rw [hp] at h
      rcases v with e | v <;> simp [get_metadata, hm, hl, hp] <;> exact h
    · by_cases hif : t ≤ c.time ∧ c.meta.always_rerender = false
      · simp [get_metadata, hm, hl, hif, countWalks]
      · have h := prerender_walks env p st
        rcases hp : prerender_article env p st with ⟨v, st2, tr⟩
        rw [hp] at h
        rcases v with e | v <;> simp [get_metadata, hm, hl, hif, hp] <;> exact h

mutual
theorem find_articles_last (env : Env) (path : FsPath) (node : FsNode) (st : CacheState) :
    (find_articles env path node st).2.1.lastRealSearch = st.lastRealSearch := by
  cases node with
  | file =>
    by_cases hmd : isMdName (path.getLastD "") = true
    · have h := get_metadata_last env path st
      rcases hg : get_metadata env path st with ⟨v, st2, tr⟩
      rw [hg] at h
      simp only [find_articles]
      rw [if_pos hmd, hg]
      rcases v with e | ⟨meta, ast⟩ <;> exact h
    · simp only [find_articles]
      rw [if_neg hmd]
  | dir entries =>
    simp only [find_articles]
    exact find_articles_entries_last env path entries st
termination_by structural node
theorem find_articles_entries_last (env : Env) (path : FsPath) (entries : FsEntries)
    (st : CacheState) :
    (find_articles_entries env path entries st).2.1.lastRealSearch = st.lastRealSearch := by
  cases entries with
  | nil => simp [find_articles_entries]
  | cons name child rest =>
    have h1 := find_articles_last env (path ++ [name]) child st
    have h2 := find_articles_entries_last env path rest
      (find_articles env (path ++ [name]) child st).2.1
    simp only [find_articles_entries]
    rw [h2, h1]
termination_by structural entries
end

mutual
theorem find_articles_walks (env : Env) (path : FsPath) (node : FsNode) (st : CacheState) :
    countWalks (find_articles env path node st).2.2 = 0 := by
  cases node with
  | file =>
    by_cases hmd : isMdName (path.getLastD "") = true
    · have h := get_metadata_walks env path st
      rcases hg : get_metadata env path st with ⟨v, st2, tr⟩
      rw [hg] at h
      simp only [find_articles]
      rw [if_pos hmd, hg]
      rcases v with e | ⟨meta, ast⟩ <;> exact h
    · simp only [find_articles]
      rw [if_neg hmd]
      rfl
  | dir entries =>
    simp only [find_articles]
    exact find_articles_entries_walks env path entries st
termination_by structural node
theorem find_articles_entries_walks (env : Env) (path : FsPath) (entries : FsEntries)
    (st : CacheState) :
    countWalks (find_articles_entries env path entries st).2.2 = 0 := by
  cases entries with
  | nil => simp [find_articles_entries, countWalks]
  | cons name child rest =>
    have h1 := find_articles_walks env (path ++ [name]) child st
    have h2 := find_articles_entries_walks env path rest
      (find_articles env (path ++ [name]) child st).2.1
    simp only [find_articles_entries]
    rw [countWalks_append, h1, h2]
termination_by structural entries
end

theorem search_stale_spec (env : Env) (s : Search) (st : CacheState)
    (h : 1800 < env.now - st.lastRealSearch) :
    (search env s st).2.1.lastRealSearch = env.now
    ∧ countWalks (search env s st).2.2 = 1
    ∧ walkRootsCanonical (search env s st).2.2 = true := by
  have hl := find_articles_last env canonicalRoot env.fs.root
    { st with lastRealSearch := env.now }
  have hw := find_articles_walks env canonicalRoot env.fs.root
    { st with lastRealSearch := env.now }
  refine ⟨?_, ?_, ?_⟩
  · simpa [search, h] using hl
  · simp [search, h, countWalks, List.filter]
    simpa [countWalks] using hw
  · simp [search, h, walkRootsCanonical]
    simpa [walkRootsCanonical] using countWalks_zero_canonical _ hw

theorem search_fresh_spec (env : Env) (s : Search) (st : CacheState)
    (h : ¬ 1800 < env.now - st.lastRealSearch) :
    (search env s st).2.1 = st ∧ (search env s st).2.2 = [] := by
  constructor <;> simp [search, h]

/-- C6.  (a) Two indexing calls within one throttle window (the second's
instant at most 1800 s after the first's) together perform at most one full
disk walk; (b) whenever a call changes the process-wide last-full-scan
timestamp, it set it to the call's instant and performed exactly one full
walk; (c) every full walk any call performs is rooted at the canonical
top-level root — so no walk, and in particular no throttle reset, is ever
rooted at a strict subdirectory. -/
theorem c6_throttle_one_walk_per_window :
    (∀ (env1 env2 : Env) (s1 s2 : Search) (st : CacheState),
      env2.now - env1.now ≤ 1800 →
      countWalks (search env1 s1 st).2.2
        + countWalks (search env2 s2 (search env1 s1 st).2.1).2.2 ≤ 1)
    ∧ (∀ (env : Env) (s : Search) (st : CacheState),
      (search env s st).2.1.lastRealSearch ≠ st.lastRealSearch →
      (search env s st).2.1.lastRealSearch = env.now
        ∧ countWalks (search env s st).2.2 = 1)
    ∧ (∀ (env : Env) (s : Search) (st : CacheState),
      walkRootsCanonical (search env s st).2.2 = true) := by
  refine ⟨?_, ?_, ?_⟩
  · intro env1 env2 s1 s2 st hwin
    by_cases h1 : 1800 < env1.now - st.lastRealSearch
    · obtain ⟨hlast, hcw, _⟩ := search_stale_spec env1 s1 st h1
      have h2 : ¬ 1800 < env2.now - (search env1 s1 st).2.1.lastRealSearch := by
        rw [hlast]
        omega
      obtain ⟨_, htr⟩ := search_fresh_spec env2 s2 _ h2
      rw [hcw, htr]
      simp [countWalks]
    · obtain ⟨hst, htr⟩ := search_fresh_spec env1 s1 st h1
      rw [htr, hst]
      simp only [countWalks, List.filter_nil, List.length_nil, Nat.zero_add]
      by_cases h2 : 1800 < env2.now - st.lastRealSearch
      · exact Nat.le_of_eq (search_stale_spec env2 s2 st h2).2.1
      · rw [(search_fresh_spec env2 s2 st h2).2]
        simp [countWalks]
  · intro env s st hne
    by_cases h : 1800 < env.now - st.lastRealSearch
    · obtain ⟨hlast, hcw, _⟩ := search_stale_spec env s st h
      exact ⟨hlast, hcw⟩
    · obtain ⟨hst, _⟩ := search_fresh_spec env s st h
      exact absurd (by rw [hst]) hne
  · intro env s st
    by_cases h : 1800 < env.now - st.lastRealSearch
    · exact (search_stale_spec env s st h).2.2
    · rw [(search_fresh_spec env s st h).2]
      rfl

/-- Witness for C6 at concrete instants: a call at 2000 against a last scan
at 0 (stale, walks once) followed by a call at 3000 (within the window, no
walk). -/
theorem c6_witness :
    countWalks (search envT1 {} stEmpty).2.2
      + countWalks (search envT2 {} (search envT1 {} stEmpty).2.1).2.2 ≤ 1
    ∧ ((search envT1 {} stEmpty).2.1.lastRealSearch = envT1.now
        ∧ countWalks (search envT1 {} stEmpty).2.2 = 1)
    ∧ walkRootsCanonical (search envT1 {} stEmpty).2.2 = true :=
  ⟨c6_throttle_one_walk_per_window.1 envT1 envT2 {} {} stEmpty (by decide),
   c6_throttle_one_walk_per_window.2.1 envT1 {} stEmpty (by decide),
   c6_throttle_one_walk_per_window.2.2 envT1 {} stEmpty⟩

/-! ## C7: `search_path` is ignored by the live search -/

/-- C7 (refuting theorem).  The live `search` never reads
`criteria.search_path`: changing it changes nothing (first conjunct, an
identity of the embedded function), and concretely a search whose
`search_path` is `b` still returns entries from outside that subtree — both
returned paths, `a/x.md` and `b.md`, lie outside the subtree rooted at `b`.
Two searches differing only in `search_path` therefore never differ. -/
theorem c7_search_path_ignored :
    (∀ (env : Env) (s : Search) (st : CacheState) (sp : FsPath),
      search env { s with search_path := sp } st = search env s st)
    ∧ (search envW sExcl stWFast).1 = [(["a", "x.md"], mWA), (["b.md"], mWB)]
    ∧ sExcl.search_path = ["b"]
    ∧ List.isPrefixOf ["b"] ["a", "x.md"] = false
    ∧ List.isPrefixOf ["b"] ["b.md"] = false :=
  ⟨fun _ _ _ _ => rfl, by decide, by decide, by decide, by decide⟩

/-! ## C9: `exclude_paths` and `limit` are ignored by the live search -/

/-- C9 (refuting theorem).  The live `search` applies neither the
`exclude_paths` removal nor the `limit` truncation: with `a/x.md` excluded
and `limit = 1`, the returned sequence still contains the excluded path and
has length 2 — and, like `search_path`, neither field is ever read (first
conjunct). -/
theorem c9_exclude_and_limit_ignored :
    (∀ (env : Env) (s : Search) (st : CacheState) (ex : List FsPath) (lim : Option Nat),
      search env { s with exclude_paths := ex, limit := lim } st = search env s st)
    ∧ (search envW sExcl stWFast).1 = [(["a", "x.md"], mWA), (["b.md"], mWB)]
    ∧ sExcl.exclude_paths = [["a", "x.md"]]
    ∧ sExcl.limit = some 1
    ∧ ((["a", "x.md"], mWA) ∈ (search envW sExcl stWFast).1)
    ∧ (search envW sExcl stWFast).1.length = 2 :=
  ⟨fun _ _ _ _ _ => rfl, by decide, by decide, by decide, by decide, by decide⟩

/-! ## C10: which code blocks force `always_rerender` -/

theorem fragVisitBlock_flag (env : Env) (p : FsPath) (b : Block) :
    (fragVisitBlock env p b).2 = isCodeBlock b := by
  cases b with
  | CodeBlock attr contents =>
    by_cases hs : "search" ∈ attr.2.1
    · rcases hps : env.parseSearchBlock contents with _ | s
      · simp [fragVisitBlock, isCodeBlock, hs, hps]
      · rcases hsf : env.searchFrag { s with exclude_paths := s.exclude_paths ++ [p] }
          with _ | htmlOut <;> simp [fragVisitBlock, isCodeBlock, hs, hps, hsf]
    · simp [fragVisitBlock, isCodeBlock, hs]
  | Plain is => rfl
  | Para is => rfl
  | LineBlock ls => rfl
  | RawBlock f s => rfl
  | BlockQuote bs => rfl
  | other => rfl

theorem alookup_ainsert_self {κ β : Type} [DecidableEq κ] (k : κ) (v : β)
    (l : List (κ × β)) : alookup k (ainsert k v l) = some v := by
  simp [alookup, ainsert]

theorem alookup_cons {κ β : Type} [DecidableEq κ] (k : κ) (kv : κ × β)
    (l : List (κ × β)) :
    alookup k (kv :: l) = if kv.1 = k then some kv.2 else alookup k l := rfl

theorem alookup_filter_ne {κ β : Type} [DecidableEq κ] (k k' : κ)
    (l : List (κ × β)) (h : k ≠ k') :
    alookup k (l.filter (fun kv => if kv.1 = k' then false else true)) = alookup k l := by
  induction l with
  | nil => rfl
  | cons kv t ih =>
    rw [List.filter_cons]
    by_cases h1 : kv.1 = k'
    · have hp : (if kv.1 = k' then false else true) = false := by simp [h1]
      rw [hp, if_neg Bool.false_ne_true]
      rw [alookup_cons k kv t, if_neg (fun hc => h (hc.symm.trans h1))]
      exact ih
    · have hp : (if kv.1 = k' then false else true) = true := by simp [h1]
      rw [hp, if_pos rfl]
      rw [alookup_cons, alookup_cons]
      by_cases h2 : kv.1 = k
      · rw [if_pos h2, if_pos h2]
      · rw [if_neg h2, if_neg h2]
        exact ih

theorem alookup_ainsert_ne {κ β : Type} [DecidableEq κ] (k k' : κ) (v : β)
    (l : List (κ × β)) (h : k ≠ k') : alookup k (ainsert k' v l) = alookup k l := by
  unfold ainsert
  rw [alookup_cons, if_neg (fun hc => h hc.symm)]
  exact alookup_filter_ne k k' l h

theorem frag_meta_always (env : Env) (p : FsPath) (ast : Pandoc)
    (h : ast.blocks.any isCodeBlock = true) :
    (frag_search_results env p ast).meta
      = ainsert "always_rerender" (MetaValue.MetaBool true) ast.meta := by
  unfold frag_search_results
  have hgen : ∀ bs : List Block,
      (bs.map (fragVisitBlock env p)).any Prod.snd = bs.any isCodeBlock := by
    intro bs
    induction bs with
    | nil => rfl
    | cons b t ih => simp [fragVisitBlock_flag, ih]
  have hany : (ast.blocks.map (fragVisitBlock env p)).any Prod.snd = true := by
    rw [hgen, h]
  simp [hany]

theorem apply_filters_always (env : Env) (p : FsPath) (ast : Pandoc)
    (h : ast.blocks.any isCodeBlock = true) :
    alookup "always_rerender" (apply_filters env p ast).meta
      = some (MetaValue.MetaBool true) := by
  unfold apply_filters find_links
  rw [alookup_ainsert_ne _ _ _ _ (by decide : ("always_rerender" : String) ≠ "mentions")]
  rw [frag_meta_always env p ast h, alookup_ainsert_self]

theorem metaFromPandoc_always_true (p : Pandoc) (m : ArticleMeta)
    (hl : alookup "always_rerender" p.meta = some (MetaValue.MetaBool true))
    (hm : metaFromPandoc p = .ok m) : m.always_rerender = true := by
  rcases metaFromPandoc_cases p with hcase | ⟨m2, hok, hfield⟩
  · rw [hcase] at hm
    simp at hm
  · rw [hok] at hm
    injection hm with hm
    subst hm
    unfold metaField at hfield
    rw [hl] at hfield
    simp [decodeBool] at hfield
    exact hfield

theorem backfill_always (m0 : ArticleMeta) (d1 d2 : NaiveDate) :
    (if (if m0.updated = NaiveDate.unset then { m0 with updated := d1 } else m0).created
          = NaiveDate.unset
      then { (if m0.updated = NaiveDate.unset then { m0 with updated := d1 } else m0) with
             created := d2 }
      else (if m0.updated = NaiveDate.unset then { m0 with updated := d1 }
            else m0)).always_rerender
      = m0.always_rerender := by
  by_cases hu : m0.updated = NaiveDate.unset
  · simp [hu]
    split <;> rfl
  · simp [hu]
    split <;> rfl

/-- C10 (amended).  For a document whose parse tree has a TOP-LEVEL code
block of any kind (the visitor override does not recurse, so nested code
blocks are invisible to it): the filter stage inserts
`always_rerender = true` into the tree's metadata (a), hence a render that
actually executes (the path not already in flight) caches and returns
metadata with `always_rerender == true` (b), and any `get_article` call that
finds a cached entry with `always_rerender == true` and a readable disk
time bypasses the fresh-hit return and takes the render branch (c). -/
theorem c10_top_level_code_block_forces_rerender :
    (∀ (env : Env) (p : FsPath) (ast : Pandoc),
      ast.blocks.any isCodeBlock = true →
      alookup "always_rerender" (apply_filters env p ast).meta
        = some (MetaValue.MetaBool true))
    ∧ (∀ (env : Env) (p : FsPath) (st : CacheState) (ast0 : Pandoc)
        (m : ArticleMeta) (a : Pandoc),
      p ∉ st.busyAsts →
      env.parse p = .ok ast0 →
      ast0.blocks.any isCodeBlock = true →
      (prerender_article env p st).val = .ok (m, a) →
      m.always_rerender = true)
    ∧ (∀ (env : Env) (p : FsPath) (st : CacheState) (t : Nat) (c : Article),
      env.fs.mtime p = some t →
      alookup p st.articleCache = some c →
      c.meta.always_rerender = true →
      get_article env p st
        = match render_article env p st with
          | ⟨.ok a, st2, tr⟩ => ⟨.ok a, st2, tr⟩
          | ⟨.error _, st2, tr⟩ => ⟨.ok c, st2, tr⟩) := by
  refine ⟨fun env p ast h => apply_filters_always env p ast h, ?_, ?_⟩
  · intro env p st ast0 m a hb hp hany hval
    rcases hmf : metaFromPandoc (apply_filters env p ast0) with e | m0
    · simp [prerender_article, hb, hp, hmf] at hval
    · have hval2 : (prerender_article env p st).val
          = .ok (if (if m0.updated = NaiveDate.unset
                      then { m0 with updated := env.dateOf ((env.fs.mtime p).getD env.now) }
                      else m0).created = NaiveDate.unset
                 then { (if m0.updated = NaiveDate.unset
                          then { m0 with updated := env.dateOf ((env.fs.mtime p).getD env.now) }
                          else m0) with created := env.dateOf ((env.fs.ctime p).getD env.now) }
                 else (if m0.updated = NaiveDate.unset
                        then { m0 with updated := env.dateOf ((env.fs.mtime p).getD env.now) }
                        else m0), apply_filters env p ast0) := by
        simp [prerender_article, hb, hp, hmf]
      rw [hval2] at hval
      injection hval with hval
      have hm0 : m0.always_rerender = true :=
        metaFromPandoc_always_true _ m0 (apply_filters_always env p ast0 hany) hmf
      rw [Prod.mk.injEq] at hval
      have hma : m.always_rerender = m0.always_rerender := by
        rw [← hval.1]
        exact backfill_always m0 _ _
      rw [hma, hm0]
  · intro env p st t c hm hc har
    unfold get_article
    simp only [hm, hc]
    rw [if_neg (fun hcond => by rw [har] at hcond; exact absurd hcond.2 (by simp))]

/-- Witness for C10's amended theorem at concrete inputs: the top-level
code-block document gets `always_rerender` in its filtered metadata and in
its prerendered metadata, and a cached entry with the flag set dispatches
`get_article` to the render branch. -/
theorem c10_witness :
    alookup "always_rerender" (apply_filters envWCode pW astCodeW).meta
      = some (MetaValue.MetaBool true)
    ∧ mCodeW.always_rerender = true
    ∧ get_article envWCode pW stAR
        = match render_article envWCode pW stAR with
          | ⟨.ok a, st2, tr⟩ => ⟨.ok a, st2, tr⟩
          | ⟨.error _, st2, tr⟩ => ⟨.ok artAR, st2, tr⟩ :=
  ⟨c10_top_level_code_block_forces_rerender.1 envWCode pW astCodeW (by decide),
   c10_top_level_code_block_forces_rerender.2.1 envWCode pW stEmpty astCodeW
     mCodeW astCodeFilteredW (by decide) (by decide) (by decide) (by decide),
   c10_top_level_code_block_forces_rerender.2.2 envWCode pW stAR 50 artAR
     (by decide) (by decide) (by decide)⟩

/-- C10 (refuting half).  A document whose only code block is nested inside
a block quote: the tree does contain a code block, yet the filter inserts
nothing, the cached metadata has `always_rerender == false`, and the next
`get_article` call takes the fresh-cache-hit path with an empty effect
trace (no re-render). -/
theorem c10_counterexample_nested_code_block :
    pandocHasCodeBlock astNestedW = true
    ∧ (get_article envWNested pW stEmpty).val
        = .ok ⟨"<p>hi</p>", { updated := ⟨2024, 1, 2⟩, created := ⟨2024, 1, 2⟩ }, 100⟩
    ∧ ({ updated := ⟨2024, 1, 2⟩, created := ⟨2024, 1, 2⟩ } : ArticleMeta).always_rerender
        = false
    ∧ get_article envWNested pW (get_article envWNested pW stEmpty).st
        = ⟨.ok ⟨"<p>hi</p>", { updated := ⟨2024, 1, 2⟩, created := ⟨2024, 1, 2⟩ }, 100⟩,
           (get_article envWNested pW stEmpty).st, []⟩ := by
  decide

end Wolog
